import Mathlib

/-!
Verification of `src/stages/01_download_build.py` (biobricks-ai/tdc-admet).

Shallow embedding conventions:
* A Python string is a list of Unicode code points (`List Nat`); `codes`
  turns a Lean string literal into that representation.
* A pandas DataFrame is a list of column names plus a list of rows
  (`DF` below); every pandas operation used by the script is translated
  to an explicit Lean function on `DF`.
* The TDC provider (`ADME(name).get_data()` / `Tox(name).get_data()`),
  parquet-write failures and parquet-read failures are oracles passed to
  the embedded `main`; the filesystem (`brick/`) is an association list
  from file names to tables; console output is a list of tagged lines,
  one constructor per `print` call in the source.
-/

/-- Code points of a Lean string literal, for writing concrete Python strings. -/
def codes (s : String) : List Nat := s.toList.map (fun c => c.toNat)

/-- Whitespace code points removed by Python `str.strip()`
(ASCII whitespace plus the common Unicode ones). -/
def isSpaceCode (c : Nat) : Bool :=
  c == 9 || c == 10 || c == 11 || c == 12 || c == 13 ||
  c == 28 || c == 29 || c == 30 || c == 31 || c == 32 || c == 133 || c == 160

/-- `str.lower()` on one code point (ASCII letters). -/
def lowerC (c : Nat) : Nat := if 65 ≤ c ∧ c ≤ 90 then c + 32 else c

/-- Python `str.strip()`: remove leading and trailing whitespace. -/
def pyStrip (s : List Nat) : List Nat :=
  ((s.dropWhile isSpaceCode).reverse.dropWhile isSpaceCode).reverse

/-- Python `str.lower()`. -/
def pyLower (s : List Nat) : List Nat := s.map lowerC

/-- Python `str.replace(a, b)` for one-character patterns. -/
def pyReplaceChar (a b : Nat) (s : List Nat) : List Nat :=
  s.map (fun c => if c = a then b else c)

/-- Column-name normalization from lines 72 and 96 of the source:
`str(c).strip().lower().replace(' ', '_').replace('-', '_')`. -/
def normName (s : List Nat) : List Nat :=
  pyReplaceChar 45 95 (pyReplaceChar 32 95 (pyLower (pyStrip s)))

/-- The per-code-point action of `normName` after stripping. -/
def normC (c : Nat) : Nat :=
  (fun c => if c = 45 then 95 else c) ((fun c => if c = 32 then 95 else c) (lowerC c))

theorem normName_eq_map (s : List Nat) : normName s = (pyStrip s).map normC := by
  simp [normName, pyLower, pyReplaceChar, List.map_map, normC, Function.comp]

theorem normC_idem (c : Nat) : normC (normC c) = normC c := by
  simp only [normC, lowerC]
  split_ifs <;> omega

theorem normC_nonspace (c : Nat) (h : isSpaceCode c = false) :
    isSpaceCode (normC c) = false := by
  simp only [isSpaceCode, Bool.or_eq_false_iff, beq_eq_false_iff_ne, ne_eq] at h ⊢
  simp only [normC, lowerC]
  split_ifs <;> omega

theorem head?_dropWhile_nonspace (p : Nat → Bool) (l : List Nat) (c : Nat)
    (h : (l.dropWhile p).head? = some c) : p c = false := by
  induction l with
  | nil => simp [List.dropWhile] at h
  | cons a t ih =>
    by_cases hp : p a
    · exact ih (by simpa [List.dropWhile, hp] using h)
    · simp only [List.dropWhile, hp] at h
      simp only [List.head?] at h
      cases h
      simpa using hp

theorem getLast?_dropWhile (p : Nat → Bool) (l : List Nat)
    (h : l.dropWhile p ≠ []) : (l.dropWhile p).getLast? = l.getLast? := by
  induction l with
  | nil => simp [List.dropWhile] at h
  | cons a t ih =>
    by_cases hp : p a
    · simp only [List.dropWhile, hp] at h ⊢
      have ht : t ≠ [] := by
        intro he; rw [he] at h; simp [List.dropWhile] at h
      rw [ih h, List.getLast?_cons]
      cases hgl : t.getLast? with
      | none => exact absurd (List.getLast?_eq_none_iff.mp hgl) ht
      | some b => simp
    · simp [List.dropWhile, hp]

theorem pyStrip_head_nonspace (s : List Nat) (c : Nat)
    (h : (pyStrip s).head? = some c) : isSpaceCode c = false := by
  unfold pyStrip at h
  rw [List.head?_reverse] at h
  have hne : (s.dropWhile isSpaceCode).reverse.dropWhile isSpaceCode ≠ [] := by
    intro he; rw [he] at h; simp at h
  rw [getLast?_dropWhile _ _ hne, List.getLast?_reverse] at h
  exact head?_dropWhile_nonspace _ _ _ h

theorem pyStrip_getLast_nonspace (s : List Nat) (c : Nat)
    (h : (pyStrip s).getLast? = some c) : isSpaceCode c = false := by
  unfold pyStrip at h
  rw [List.getLast?_reverse] at h
  exact head?_dropWhile_nonspace _ _ _ h

theorem dropWhile_eq_self_of_head (p : Nat → Bool) (l : List Nat)
    (h : ∀ c, l.head? = some c → p c = false) : l.dropWhile p = l := by
  cases l with
  | nil => rfl
  | cons a t => simp [List.dropWhile, h a rfl]

theorem pyStrip_eq_self (l : List Nat)
    (h1 : ∀ c, l.head? = some c → isSpaceCode c = false)
    (h2 : ∀ c, l.getLast? = some c → isSpaceCode c = false) :
    pyStrip l = l := by
  have hd : l.dropWhile isSpaceCode = l := dropWhile_eq_self_of_head _ l h1
  have hr : l.reverse.dropWhile isSpaceCode = l.reverse :=
    dropWhile_eq_self_of_head _ l.reverse
      (fun c hc => h2 c (by rwa [List.head?_reverse] at hc))
  unfold pyStrip
  rw [hd, hr, List.reverse_reverse]

theorem pyStrip_map_normC_pyStrip (s : List Nat) :
    pyStrip ((pyStrip s).map normC) = (pyStrip s).map normC := by
  apply pyStrip_eq_self
  · intro c h
    rw [List.head?_map] at h
    cases hh : (pyStrip s).head? with
    | none => rw [hh] at h; simp at h
    | some b =>
      rw [hh] at h
      have hbc : normC b = c := by simpa using h
      exact hbc ▸ normC_nonspace _ (pyStrip_head_nonspace s b hh)
  · intro c h
    rw [List.getLast?_map] at h
    cases hh : (pyStrip s).getLast? with
    | none => rw [hh] at h; simp at h
    | some b =>
      rw [hh] at h
      have hbc : normC b = c := by simpa using h
      exact hbc ▸ normC_nonspace _ (pyStrip_getLast_nonspace s b hh)

/-- C6: The column-name normalization (trim, lowercase, space→underscore,
hyphen→underscore) is idempotent: applying it twice to any column name gives
the same result as applying it once. -/
theorem claim_c6_normName_idempotent (s : List Nat) :
    normName (normName s) = normName s := by
  rw [normName_eq_map s, normName_eq_map ((pyStrip s).map normC),
    pyStrip_map_normC_pyStrip, List.map_map]
  have : normC ∘ normC = normC := funext normC_idem
  rw [this]

/-! ## Data model: cell values and DataFrames -/

/-- A pandas cell value: a (Python) string, an integer, or the NaN filler
that `pd.concat` inserts for columns missing from one of the frames. -/
inductive Value where
  | str (s : List Nat)
  | int (n : Int)
  | na
deriving DecidableEq, Repr

/-- Is the value text-typed? -/
def Value.isStr : Value → Bool
  | .str _ => true
  | _ => false

/-- `.astype(str)` on one cell: Python renders ints in decimal and NaN as
the string "nan". -/
def Value.toStr : Value → Value
  | .str s => .str s
  | .int n => .str (codes (toString n))
  | .na => .str (codes "nan")

/-- A pandas DataFrame: ordered column names plus rows of cells
(row `r`'s cell for column `cols[i]` is `r[i]`). -/
structure DF where
  cols : List (List Nat)
  rows : List (List Value)
deriving DecidableEq, Repr

/-- A row's cell for a named column (first occurrence), or the NaN filler
when the column is absent — the behaviour `pd.concat` gives rows whose
frame lacks one of the combined columns. -/
def cellOf (cols : List (List Nat)) (r : List Value) (c : List Nat) : Value :=
  match (cols.zip r).lookup c with
  | some v => v
  | none => .na

/-- The values of one named column, top to bottom. -/
def DF.colVals (df : DF) (c : List Nat) : List Value :=
  df.rows.map (fun r => cellOf df.cols r c)

/-- `df[c] = v` for a constant `v`: pandas overwrites the column in place
when it exists and appends it on the right otherwise. -/
def DF.setConst (df : DF) (c : List Nat) (v : Value) : DF :=
  if df.cols.contains c then
    { cols := df.cols,
      rows := df.rows.map (fun r => (df.cols.zip r).map
        (fun p => if p.1 = c then v else p.2)) }
  else
    { cols := df.cols ++ [c], rows := df.rows.map (fun r => r ++ [v]) }

/-- `df.columns = [normalize(c) for c in df.columns]` (lines 72 / 96). -/
def DF.normCols (df : DF) : DF := { cols := df.cols.map normName, rows := df.rows }

/-- `df[available_cols]`: column projection by name, in the given order. -/
def DF.selectCols (df : DF) (cs : List (List Nat)) : DF :=
  { cols := cs, rows := df.rows.map (fun r => cs.map (fun c => cellOf df.cols r c)) }

/-- `df[c] = df[c].map f` — used for `subset['drug_id'].astype(str)`. -/
def DF.mapCol (df : DF) (c : List Nat) (f : Value → Value) : DF :=
  { cols := df.cols,
    rows := df.rows.map (fun r => (df.cols.zip r).map
      (fun p => if p.1 = c then f p.2 else p.2)) }

/-! ## Console, filesystem and run state -/

/-- One console line per `print` call in the source: fixed text (banners and
section headers), the per-item progress line, the per-item save line, the
per-item error line, the combined-total line, the per-file report line, and
the final total line. -/
inductive Line where
  | text (s : List Nat)
  | processing (tag name : List Nat)
  | saved (n : Nat) (file : List Nat)
  | err (msg : List Nat)
  | combinedTotal (n : Nat)
  | fileRows (file : List Nat) (n : Nat)
  | total (records files : Nat)
deriving DecidableEq, Repr

/-- The `brick/` directory: file name ↦ table. -/
abbrev FS := List (List Nat × DF)

/-- `df.to_parquet(file)`: overwrite the file if present, else create it. -/
def fsWrite (fs : FS) (name : List Nat) (df : DF) : FS :=
  if fs.any (fun p => p.1 == name) then
    fs.map (fun p => if p.1 = name then (name, df) else p)
  else fs ++ [(name, df)]

/-- Look a file up by name. -/
def fsLookup (fs : FS) (name : List Nat) : Option DF :=
  (fs.find? (fun p => p.1 == name)).map (fun p => p.2)

/-- Run state: the `brick/` directory, the `all_datasets` accumulator and the
console transcript. -/
structure St where
  fs : FS
  acc : List DF
  console : List Line
deriving DecidableEq

/-- The error description attached to a raised exception / failed write. -/
abbrev ErrMsg := List Nat

/-- `f"{prefix}{name.lower()}.parquet"`. -/
def fnameOf (pfx name : List Nat) : List Nat := pfx ++ pyLower name ++ codes ".parquet"

/-- One iteration of a download loop (lines 63–81 / 87–105): print the
progress line; fetch; on success annotate with `dataset` and `category`,
normalize column names, write the parquet file, print the save line and
append to the accumulator; on any failure (fetch or write) print the error
line and leave state untouched. `fetch` is the provider oracle and `wfail`
says whether a parquet write raises. -/
def processItem (fetch : List Nat → Except ErrMsg DF) (wfail : List Nat → Option ErrMsg)
    (headTag catTag pfx : List Nat) (st : St) (name : List Nat) : St :=
  let st1 : St := { st with console := st.console ++ [.processing headTag name] }
  match fetch name with
  | .error e => { st1 with console := st1.console ++ [.err e] }
  | .ok df0 =>
    let df := ((df0.setConst (codes "dataset") (.str name)).setConst
      (codes "category") (.str catTag)).normCols
    let file := fnameOf pfx name
    match wfail file with
    | some e => { st1 with console := st1.console ++ [.err e] }
    | none =>
      { fs := fsWrite st1.fs file df,
        acc := st1.acc ++ [df],
        console := st1.console ++ [.saved df.rows.length file] }

/-! ## The fixed dataset lists and the two download loops -/

/-- The 22 ADME dataset names (lines 22–45). -/
def admeDatasets : List (List Nat) :=
  [codes "Caco2_Wang", codes "PAMPA_NCATS", codes "HIA_Hou", codes "Pgp_Broccatelli",
   codes "Bioavailability_Ma", codes "Lipophilicity_AstraZeneca", codes "Solubility_AqSolDB",
   codes "HydrationFreeEnergy_FreeSolv", codes "CYP2C19_Veith", codes "CYP2D6_Veith",
   codes "CYP3A4_Veith", codes "CYP1A2_Veith", codes "CYP2C9_Veith",
   codes "CYP2C9_Substrate_CarbonMangels", codes "CYP2D6_Substrate_CarbonMangels",
   codes "CYP3A4_Substrate_CarbonMangels", codes "Half_Life_Obach",
   codes "Clearance_Hepatocyte_AZ", codes "Clearance_Microsome_AZ", codes "PPBR_AZ",
   codes "VDss_Lombardo", codes "BBB_Martins"]

/-- The 8 toxicity dataset names (lines 48–57). -/
def toxDatasets : List (List Nat) :=
  [codes "hERG", codes "hERG_Karim", codes "AMES", codes "DILI", codes "Skin_Reaction",
   codes "Carcinogens_Lagunin", codes "ClinTox", codes "LD50_Zhu"]

/-- The code points of `"=" * 60`. -/
def sepCodes : List Nat := List.replicate 60 61

/-- The `"=" * 60` separator line. -/
def sepLine : Line := .text sepCodes

/-- A sequence of bare `print` calls: append their lines to the console. -/
def addLines (st : St) (ls : List Line) : St :=
  { st with console := st.console ++ ls }

/-- The banner printed by the combiner phase (lines 108–110). -/
def combineBanner : List Line :=
  [.text (10 :: sepCodes),
   .text (codes "Creating combined dataset..."), sepLine]

/-- The banner printed by the reporter phase (lines 132–134). -/
def reportBanner : List Line :=
  [.text (10 :: sepCodes),
   .text (codes "Output files:"), sepLine]

/-- The two download loops (lines 59–105), banners included, starting from
run state `st`. `fetchA` / `fetchT` are the `ADME` / `Tox` provider oracles. -/
def runPhase1 (fetchA fetchT : List Nat → Except ErrMsg DF)
    (wfail : List Nat → Option ErrMsg) (st : St) : St :=
  toxDatasets.foldl
    (processItem fetchT wfail (codes "Tox") (codes "Toxicity") (codes "tox_"))
    (addLines
      (admeDatasets.foldl
        (processItem fetchA wfail (codes "ADME") (codes "ADME") (codes "adme_"))
        (addLines st
          [sepLine, .text (codes "Downloading ADME datasets from TDC..."), sepLine]))
      [.text (10 :: sepCodes),
       .text (codes "Downloading Toxicity datasets from TDC..."), sepLine])

/-! ## Combiner (lines 107–129) -/

/-- `cols_to_keep` (line 116). -/
def keepCols : List (List Nat) :=
  [codes "drug_id", codes "drug", codes "y", codes "dataset", codes "category"]

/-- One loop body of lines 115–123: keep only the available key columns; if
none is available the table is skipped; otherwise coerce `drug_id` (when
present) to string. -/
def project (df : DF) : Option DF :=
  let availableCols := keepCols.filter (fun c => df.cols.contains c)
  if availableCols.isEmpty then none
  else
    let subset := df.selectCols availableCols
    some (if subset.cols.contains (codes "drug_id") then
      subset.mapCol (codes "drug_id") Value.toStr else subset)

/-- Column union in first-appearance order — the columns `pd.concat` gives a
list of frames (`sort=False` default). -/
def unionCols (l : List (List (List Nat))) : List (List Nat) :=
  l.foldl (fun acc cs => acc ++ cs.filter (fun c => !acc.contains c)) []

/-- `pd.concat(dfs, ignore_index=True)`: align every row to the union of the
columns (NaN for the ones its frame lacks) and chain the rows. -/
def concatDFs (dfs : List DF) : DF :=
  let cols := unionCols (dfs.map (fun df => df.cols))
  { cols := cols,
    rows := (dfs.map (fun df => df.rows.map
      (fun r => cols.map (fun c => cellOf df.cols r c)))).flatten }

/-- Lines 112–126 as a function of the accumulator: `None` exactly when the
inner `if summary_data:` (or the outer `if all_datasets:`) fails and no
combined table is produced. -/
def combine (acc : List DF) : Option DF :=
  let summaryData := acc.filterMap project
  if summaryData.isEmpty then none else some (concatDFs summaryData)

/-- `brick/tdc_admet_combined.parquet` (line 127). -/
def combinedName : List Nat := codes "tdc_admet_combined.parquet"

/-- Lines 107–129: print the combiner banner; write the combined table when
one is produced. The combined write is outside any `try`, so a write failure
here is fatal (`Except.error`). -/
def combineStep (wfail : List Nat → Option ErrMsg) (st : St) : Except ErrMsg St :=
  let st1 : St := addLines st combineBanner
  match combine st1.acc with
  | none => .ok st1
  | some c =>
    match wfail combinedName with
    | some e => .error e
    | none => .ok { st1 with
        fs := fsWrite st1.fs combinedName c,
        console := st1.console ++ [.combinedTotal c.rows.length] }

/-! ## Reporter (lines 131–141) -/

/-- `a ≤ b` in the lexicographic code-point order Python uses to sort paths. -/
def lexLe : List Nat → List Nat → Bool
  | [], _ => true
  | _x :: _xs, [] => false
  | x :: xs, y :: ys => if x < y then true else if y < x then false else lexLe xs ys

/-- `sorted(brick_path.glob("*.parquet"))`. -/
def sortFiles (fs : FS) : FS :=
  fs.insertionSort (fun p q => lexLe p.1 q.1 = true)

/-- The reporter loop (lines 136–139): re-read every parquet file from disk,
accumulating the total and the per-file lines; `rfail` says whether a read
raises, and a raise propagates (`Except.error` — no handler in this phase). -/
def readLoop (rfail : List Nat → Option ErrMsg) :
    FS → Nat → List Line → Except ErrMsg (Nat × List Line)
  | [], tot, lines => .ok (tot, lines)
  | (f, df) :: rest, tot, lines =>
    match rfail f with
    | some e => .error e
    | none => readLoop rfail rest (tot + df.rows.length)
        (lines ++ [.fileRows f df.rows.length])

/-- Lines 131–141: banner, per-file report in sorted filename order, then the
grand total over the re-read files together with the file count. -/
def reportStep (rfail : List Nat → Option ErrMsg) (st : St) : Except ErrMsg St :=
  let st1 : St := addLines st reportBanner
  match readLoop rfail (sortFiles st1.fs) 0 [] with
  | .error e => .error e
  | .ok (tot, lines) =>
    .ok { st1 with console := st1.console ++ lines ++ [.total tot st1.fs.length] }

/-- The whole `main` (lines 15–141) over the four oracles, starting from an
empty `brick/` directory: the two download loops, the combiner, the reporter. -/
def runMain (fetchA fetchT : List Nat → Except ErrMsg DF)
    (wfail rfail : List Nat → Option ErrMsg) : Except ErrMsg St :=
  let st1 := runPhase1 fetchA fetchT wfail { fs := [], acc := [], console := [] }
  match combineStep wfail st1 with
  | .error e => .error e
  | .ok st2 => reportStep rfail st2

/-! ## Basic lemmas about the DataFrame and filesystem operations -/

theorem find?_map_overwrite (fs : FS) (name : List Nat) (df : DF)
    (hany : fs.any (fun p => p.1 == name) = true) :
    (fs.map (fun p => if p.1 = name then (name, df) else p)).find?
      (fun p => p.1 == name) = some (name, df) := by
  induction fs with
  | nil => simp at hany
  | cons q fs ih =>
    by_cases hq : q.1 = name
    · rw [List.map_cons, if_pos hq]
      exact List.find?_cons_of_pos _ (by simp)
    · have hany' : fs.any (fun p => p.1 == name) = true := by
        simp only [List.any_cons, Bool.or_eq_true_iff] at hany
        rcases hany with h | h
        · exact absurd (by simpa using h) hq
        · exact h
      rw [List.map_cons, if_neg hq]
      rw [List.find?_cons_of_neg _ (by simpa using hq)]
      exact ih hany'

theorem find?_append_self (fs : FS) (name : List Nat) (df : DF)
    (hany : fs.any (fun p => p.1 == name) = false) :
    (fs ++ [(name, df)]).find? (fun p => p.1 == name) = some (name, df) := by
  induction fs with
  | nil => exact List.find?_cons_of_pos _ (by simp)
  | cons q fs ih =>
    simp only [List.any_cons, Bool.or_eq_false_iff] at hany
    rw [List.cons_append, List.find?_cons_of_neg _ (by simp [hany.1])]
    exact ih hany.2

theorem fsLookup_fsWrite_self (fs : FS) (name : List Nat) (df : DF) :
    fsLookup (fsWrite fs name df) name = some df := by
  unfold fsWrite fsLookup
  by_cases hany : fs.any (fun p => p.1 == name)
  · rw [if_pos hany, find?_map_overwrite fs name df hany]
    rfl
  · rw [if_neg hany,
      find?_append_self fs name df (Bool.not_eq_true _ ▸ hany)]
    rfl

theorem lookup_zip_map (cs : List (List Nat)) (f : List Nat → Value) (c : List Nat)
    (h : c ∈ cs) : (cs.zip (cs.map f)).lookup c = some (f c) := by
  induction cs with
  | nil => simp at h
  | cons a t ih =>
    by_cases hc : c = a
    · subst hc; simp [List.lookup]
    · have hct : c ∈ t := by
        rcases List.mem_cons.mp h with h1 | h1
        · exact absurd h1 hc
        · exact h1
      have hba : (c == a) = false := beq_eq_false_iff_ne.mpr hc
      show List.lookup c ((a, f a) :: t.zip (t.map f)) = some (f c)
      rw [List.lookup, hba]
      exact ih hct

theorem cellOf_map_self (cs : List (List Nat)) (f : List Nat → Value) (c : List Nat)
    (h : c ∈ cs) : cellOf cs (cs.map f) c = f c := by
  unfold cellOf
  rw [lookup_zip_map cs f c h]

theorem setConst_cols_of_not_mem (df : DF) (c : List Nat) (v : Value)
    (h : ¬c ∈ df.cols) : (df.setConst c v).cols = df.cols ++ [c] := by
  unfold DF.setConst
  rw [if_neg (by simpa [List.elem_iff] using h)]

theorem setConst_rows_of_not_mem (df : DF) (c : List Nat) (v : Value)
    (h : ¬c ∈ df.cols) :
    (df.setConst c v).rows = df.rows.map (fun r => r ++ [v]) := by
  unfold DF.setConst
  rw [if_neg (by simpa [List.elem_iff] using h)]

/-! ## C1: successful fetch writes the annotated table -/

/-- C1: For any dataset name whose provider call succeeds (and whose parquet
write does not raise), the per-item step leaves in `brick/` a file, readable
as a table, holding exactly the provider's rows extended with exactly two
additional columns `dataset` and `category`, whose cell in every row is the
dataset's name resp. its category tag. (The provider columns appear under
their normalized names; the hypotheses `hds`/`hcat` state that the provider
table does not already carry the two annotation columns, which is what
"additional" presupposes.) -/
theorem claim_c1_success_writes_annotated_table
    (fetch : List Nat → Except ErrMsg DF) (wfail : List Nat → Option ErrMsg)
    (headTag catTag pfx : List Nat) (st : St) (name : List Nat) (df0 : DF)
    (hfetch : fetch name = .ok df0)
    (hw : wfail (fnameOf pfx name) = none)
    (hds : ¬codes "dataset" ∈ df0.cols)
    (hcat : ¬codes "category" ∈ df0.cols) :
    ∃ saved,
      fsLookup (processItem fetch wfail headTag catTag pfx st name).fs
        (fnameOf pfx name) = some saved ∧
      saved.cols = df0.cols.map normName ++ [codes "dataset", codes "category"] ∧
      saved.rows = df0.rows.map (fun r => r ++ [.str name, .str catTag]) ∧
      saved.rows.length = df0.rows.length := by
  unfold processItem
  rw [hfetch]
  simp only [hw]
  refine ⟨_, fsLookup_fsWrite_self _ _ _, ?_, ?_, ?_⟩
  · have h1 := setConst_cols_of_not_mem df0 (codes "dataset") (.str name) hds
    have hcat' : ¬codes "category" ∈ (df0.setConst (codes "dataset") (.str name)).cols := by
      rw [h1]
      intro hmem
      rcases List.mem_append.mp hmem with h | h
      · exact hcat h
      · simp only [List.mem_singleton] at h
        exact absurd (congrArg List.length h) (by decide)
    have h2 := setConst_cols_of_not_mem _ (codes "category") (.str catTag) hcat'
    show ((df0.setConst (codes "dataset") (.str name)).setConst (codes "category")
      (.str catTag)).cols.map normName = _
    rw [h2, h1, List.append_assoc, List.map_append]
    congr 1
  · have h1 := setConst_rows_of_not_mem df0 (codes "dataset") (.str name) hds
    have hcat' : ¬codes "category" ∈ (df0.setConst (codes "dataset") (.str name)).cols := by
      rw [setConst_cols_of_not_mem df0 (codes "dataset") (.str name) hds]
      intro hmem
      rcases List.mem_append.mp hmem with h | h
      · exact hcat h
      · simp only [List.mem_singleton] at h
        exact absurd (congrArg List.length h) (by decide)
    have h2 := setConst_rows_of_not_mem _ (codes "category") (.str catTag) hcat'
    show ((df0.setConst (codes "dataset") (.str name)).setConst (codes "category")
      (.str catTag)).rows = _
    rw [h2, h1, List.map_map]
    simp [Function.comp]
  · have h1 := setConst_rows_of_not_mem df0 (codes "dataset") (.str name) hds
    have hcat' : ¬codes "category" ∈ (df0.setConst (codes "dataset") (.str name)).cols := by
      rw [setConst_cols_of_not_mem df0 (codes "dataset") (.str name) hds]
      intro hmem
      rcases List.mem_append.mp hmem with h | h
      · exact hcat h
      · simp only [List.mem_singleton] at h
        exact absurd (congrArg List.length h) (by decide)
    have h2 := setConst_rows_of_not_mem _ (codes "category") (.str catTag) hcat'
    show ((df0.setConst (codes "dataset") (.str name)).setConst (codes "category")
      (.str catTag)).rows.length = _
    rw [h2, h1, List.map_map, List.length_map]

/-- A one-row provider table used to instantiate the claim theorems. -/
def w1DF : DF :=
  { cols := [codes "Drug_ID", codes "Drug", codes "Y"],
    rows := [[.str (codes "d1"), .str (codes "CCO"), .int 1]] }

theorem claim_c1_witness :
    ∃ saved,
      fsLookup (processItem (fun _ => .ok w1DF) (fun _ => none)
        (codes "ADME") (codes "ADME") (codes "adme_")
        { fs := [], acc := [], console := [] } (codes "Caco2_Wang")).fs
        (fnameOf (codes "adme_") (codes "Caco2_Wang")) = some saved ∧
      saved.cols = w1DF.cols.map normName ++ [codes "dataset", codes "category"] ∧
      saved.rows = w1DF.rows.map (fun r => r ++ [.str (codes "Caco2_Wang"), .str (codes "ADME")]) ∧
      saved.rows.length = w1DF.rows.length :=
  claim_c1_success_writes_annotated_table (fun _ => .ok w1DF) (fun _ => none)
    (codes "ADME") (codes "ADME") (codes "adme_")
    { fs := [], acc := [], console := [] } (codes "Caco2_Wang") w1DF
    rfl rfl (by decide) (by decide)

/-! ## C2: per-item failures are swallowed and the loops continue -/

/-- The names whose "Processing .../..." progress line was printed, in print
order. The progress line is printed before the `try` block, so this is the
list of attempted dataset names. -/
def attemptTrace (console : List Line) : List (List Nat) :=
  console.filterMap (fun l => match l with
    | .processing _ n => some n
    | _ => none)

theorem attemptTrace_append (a b : List Line) :
    attemptTrace (a ++ b) = attemptTrace a ++ attemptTrace b :=
  List.filterMap_append a b _

theorem attemptTrace_processItem (fetch : List Nat → Except ErrMsg DF)
    (wfail : List Nat → Option ErrMsg) (headTag catTag pfx : List Nat)
    (st : St) (name : List Nat) :
    attemptTrace (processItem fetch wfail headTag catTag pfx st name).console =
      attemptTrace st.console ++ [name] := by
  unfold processItem
  cases hf : fetch name with
  | error e => simp [attemptTrace_append, attemptTrace]
  | ok df0 =>
    cases hw : wfail (fnameOf pfx name) with
    | some e => simp [hw, attemptTrace_append, attemptTrace]
    | none => simp [hw, attemptTrace_append, attemptTrace]

theorem attemptTrace_foldl (fetch : List Nat → Except ErrMsg DF)
    (wfail : List Nat → Option ErrMsg) (headTag catTag pfx : List Nat)
    (names : List (List Nat)) (st : St) :
    attemptTrace (names.foldl
      (processItem fetch wfail headTag catTag pfx) st).console =
      attemptTrace st.console ++ names := by
  induction names generalizing st with
  | nil => simp
  | cons n rest ih =>
    rw [List.foldl_cons, ih, attemptTrace_processItem, List.append_assoc]
    rfl

/-- C2: if the provider call for a name — or the parquet write that follows
it — fails, the per-item step swallows the exception (the step is a total
function), writes no file (the directory is unchanged), accumulates nothing,
and prints exactly one error line carrying the failure's description; and
independently of any failures, both loops attempt every name of both fixed
lists in their original order (witnessed by the print-order of the progress
lines). -/
theorem claim_c2_failure_swallowed_and_order_preserved :
    (∀ (fetch : List Nat → Except ErrMsg DF) (wfail : List Nat → Option ErrMsg)
       (headTag catTag pfx : List Nat) (st : St) (name : List Nat),
      ((∃ e, fetch name = .error e) ∨
        (∃ df0 e, fetch name = .ok df0 ∧ wfail (fnameOf pfx name) = some e)) →
      (processItem fetch wfail headTag catTag pfx st name).fs = st.fs ∧
      (processItem fetch wfail headTag catTag pfx st name).acc = st.acc ∧
      ∃ e, ((fetch name = .error e) ∨ wfail (fnameOf pfx name) = some e) ∧
        (processItem fetch wfail headTag catTag pfx st name).console =
          st.console ++ [.processing headTag name, .err e]) ∧
    (∀ (fetchA fetchT : List Nat → Except ErrMsg DF)
       (wfail : List Nat → Option ErrMsg) (st : St),
      attemptTrace (runPhase1 fetchA fetchT wfail st).console =
        attemptTrace st.console ++ admeDatasets ++ toxDatasets) := by
  constructor
  · intro fetch wfail headTag catTag pfx st name hfail
    rcases hfail with ⟨e, he⟩ | ⟨df0, e, hok, hw⟩
    · refine ⟨?_, ?_, e, Or.inl he, ?_⟩
      · show (processItem fetch wfail headTag catTag pfx st name).fs = st.fs
        unfold processItem
        rw [he]
      · show (processItem fetch wfail headTag catTag pfx st name).acc = st.acc
        unfold processItem
        rw [he]
      · show (processItem fetch wfail headTag catTag pfx st name).console = _
        unfold processItem
        rw [he]
        simp
    · refine ⟨?_, ?_, e, Or.inr hw, ?_⟩
      · show (processItem fetch wfail headTag catTag pfx st name).fs = st.fs
        unfold processItem
        rw [hok]
        simp only [hw]
      · show (processItem fetch wfail headTag catTag pfx st name).acc = st.acc
        unfold processItem
        rw [hok]
        simp only [hw]
      · show (processItem fetch wfail headTag catTag pfx st name).console = _
        unfold processItem
        rw [hok]
        simp only [hw]
        simp
  · intro fetchA fetchT wfail st
    unfold runPhase1
    rw [attemptTrace_foldl]
    show attemptTrace (addLines _ _).console ++ _ = _
    rw [addLines]
    rw [attemptTrace_append, attemptTrace_foldl]
    show (attemptTrace (addLines st _).console ++ _) ++ _ ++ _ = _
    rw [addLines]
    rw [attemptTrace_append]
    show (((attemptTrace st.console ++ attemptTrace _) ++ _) ++ _) ++ _ = _
    have h1 : attemptTrace
        [sepLine, .text (codes "Downloading ADME datasets from TDC..."), sepLine] = [] := rfl
    have h2 : attemptTrace
        [.text (10 :: sepCodes),
         .text (codes "Downloading Toxicity datasets from TDC..."), sepLine] = [] := rfl
    rw [h1, h2, List.append_nil, List.append_nil, List.append_assoc]

theorem claim_c2_witness :
    (processItem (fun _ => .error (codes "boom")) (fun _ => none)
      (codes "ADME") (codes "ADME") (codes "adme_")
      { fs := [], acc := [], console := [] } (codes "Caco2_Wang")).fs = [] ∧
    (processItem (fun _ => .error (codes "boom")) (fun _ => none)
      (codes "ADME") (codes "ADME") (codes "adme_")
      { fs := [], acc := [], console := [] } (codes "Caco2_Wang")).acc = [] ∧
    ∃ e, (((fun (_ : List Nat) => Except.error (ε := ErrMsg) (α := DF) (codes "boom"))
        (codes "Caco2_Wang") = .error e) ∨
        (fun (_ : List Nat) => (none : Option ErrMsg)) (fnameOf (codes "adme_") (codes "Caco2_Wang")) = some e) ∧
      (processItem (fun _ => .error (codes "boom")) (fun _ => none)
        (codes "ADME") (codes "ADME") (codes "adme_")
        { fs := [], acc := [], console := [] } (codes "Caco2_Wang")).console =
        [] ++ [.processing (codes "ADME") (codes "Caco2_Wang"), .err e] :=
  claim_c2_failure_swallowed_and_order_preserved.1
    (fun _ => .error (codes "boom")) (fun _ => none)
    (codes "ADME") (codes "ADME") (codes "adme_")
    { fs := [], acc := [], console := [] } (codes "Caco2_Wang")
    (Or.inl ⟨codes "boom", rfl⟩)

/-! ## Lemmas about annotation and projection -/

theorem setConst_mem_self (df : DF) (c : List Nat) (v : Value) :
    c ∈ (df.setConst c v).cols := by
  unfold DF.setConst
  by_cases h : df.cols.contains c
  · rw [if_pos h]
    exact List.elem_iff.mp h
  · rw [if_neg h]
    exact List.mem_append.mpr (Or.inr (List.mem_singleton.mpr rfl))

theorem setConst_mem_mono (df : DF) (c c' : List Nat) (v : Value)
    (h : c' ∈ df.cols) : c' ∈ (df.setConst c v).cols := by
  unfold DF.setConst
  by_cases hc : df.cols.contains c
  · rwa [if_pos hc]
  · rw [if_neg hc]
    exact List.mem_append.mpr (Or.inl h)

theorem normCols_mem (df : DF) (c : List Nat) (h : c ∈ df.cols)
    (hn : normName c = c) : c ∈ df.normCols.cols := by
  unfold DF.normCols
  exact List.mem_map.mpr ⟨c, h, hn⟩

theorem project_isSome_of_mem (df : DF) (cc : List Nat)
    (hk : cc ∈ keepCols) (hc : cc ∈ df.cols) : (project df).isSome := by
  unfold project
  have hmem : cc ∈ keepCols.filter (fun c => df.cols.contains c) :=
    List.mem_filter.mpr ⟨hk, List.elem_iff.mpr hc⟩
  have hne : (keepCols.filter (fun c => df.cols.contains c)).isEmpty = false := by
    rcases hf : keepCols.filter (fun c => df.cols.contains c) with _ | ⟨a, t⟩
    · rw [hf] at hmem; simp at hmem
    · rfl
  have hcond : ¬((keepCols.filter (fun c => df.cols.contains c)).isEmpty = true) := by
    rw [hne]; simp
  rw [if_neg hcond]
  rfl

theorem project_none_iff (df : DF) :
    project df = none ↔ ∀ cc ∈ keepCols, cc ∉ df.cols := by
  unfold project
  constructor
  · intro h cc hk hc
    by_cases he : (keepCols.filter (fun c => df.cols.contains c)).isEmpty
    · have : cc ∈ keepCols.filter (fun c => df.cols.contains c) :=
        List.mem_filter.mpr ⟨hk, List.elem_iff.mpr hc⟩
      rw [List.isEmpty_iff.mp he] at this
      simp at this
    · rw [if_neg he] at h
      simp at h
  · intro h
    have he : keepCols.filter (fun c => df.cols.contains c) = [] := by
      rw [List.filter_eq_nil_iff]
      intro cc hk
      simpa [List.elem_iff] using h cc hk
    rw [if_pos (by rw [he]; rfl)]

theorem project_rows_length (df s : DF) (h : project df = some s) :
    s.rows.length = df.rows.length := by
  unfold project at h
  by_cases he : (keepCols.filter (fun c => df.cols.contains c)).isEmpty
  · rw [if_pos he] at h; exact absurd h (by simp)
  · rw [if_neg he] at h
    simp only [Option.some_inj] at h
    subst h
    by_cases hd : (df.selectCols (keepCols.filter (fun c => df.cols.contains c))).cols.contains
        (codes "drug_id")
    · rw [if_pos hd]
      simp [DF.mapCol, DF.selectCols]
    · rw [if_neg hd]
      simp [DF.selectCols]

theorem concatDFs_rows_length (parts : List DF) :
    (concatDFs parts).rows.length = (parts.map (fun s => s.rows.length)).sum := by
  unfold concatDFs
  rw [List.length_flatten, List.map_map]
  congr 1
  apply List.map_congr_left
  intro df _
  simp

theorem combine_none_iff (acc : List DF) :
    combine acc = none ↔ ∀ df ∈ acc, project df = none := by
  unfold combine
  constructor
  · intro h
    by_cases he : (acc.filterMap project).isEmpty
    · exact fun df hdf => by
        have := List.filterMap_eq_nil_iff.mp (List.isEmpty_iff.mp he)
        exact this df hdf
    · rw [if_neg he] at h; exact absurd h (by simp)
  · intro h
    rw [if_pos (by simp [List.isEmpty_iff, List.filterMap_eq_nil_iff]; exact h)]

theorem combine_some_rows_length (acc : List DF) (c : DF)
    (h : combine acc = some c) :
    c.rows.length = ((acc.filterMap project).map (fun s => s.rows.length)).sum := by
  unfold combine at h
  by_cases he : (acc.filterMap project).isEmpty
  · rw [if_pos he] at h; exact absurd h (by simp)
  · rw [if_neg he] at h
    simp only [Option.some_inj] at h
    subst h
    exact concatDFs_rows_length _

theorem project_some_exists (df : DF) (h : project df ≠ none) :
    ∃ cc ∈ keepCols, cc ∈ df.cols := by
  by_contra hno
  push_neg at hno
  exact h ((project_none_iff df).mpr hno)

theorem sum_filterMap_project (acc : List DF) :
    ((acc.filterMap project).map (fun s => s.rows.length)).sum =
      (acc.map (fun df =>
        if ∃ cc ∈ keepCols, cc ∈ df.cols then df.rows.length else 0)).sum := by
  induction acc with
  | nil => rfl
  | cons df t ih =>
    rw [List.map_cons, List.sum_cons]
    cases hp : project df with
    | none =>
      have hno : ¬∃ cc ∈ keepCols, cc ∈ df.cols := by
        intro ⟨cc, hk, hc⟩
        have := project_isSome_of_mem df cc hk hc
        rw [hp] at this
        simp at this
      rw [if_neg hno, List.filterMap_cons_none hp, ih]
      omega
    | some s =>
      have hyes : ∃ cc ∈ keepCols, cc ∈ df.cols :=
        project_some_exists df (by rw [hp]; simp)
      rw [if_pos hyes, List.filterMap_cons_some hp, List.map_cons,
        List.sum_cons, ih, project_rows_length df s hp]

/-- C3: the combined table's row count is the sum of the row counts of
exactly those accumulated tables having at least one of the five projected
columns; and when no accumulated table has any of them — in particular when
the accumulator is empty — no combined file is written (the combiner leaves
the directory unchanged). -/
theorem claim_c3_combined_rowcount (acc : List DF) :
    (combine acc = none ↔ ∀ df ∈ acc, ∀ cc ∈ keepCols, cc ∉ df.cols) ∧
    (∀ c, combine acc = some c →
      c.rows.length = (acc.map (fun df =>
        if ∃ cc ∈ keepCols, cc ∈ df.cols then df.rows.length else 0)).sum) ∧
    (∀ wfail st, st.acc = acc → combine acc = none →
      ∃ st2, combineStep wfail st = .ok st2 ∧ st2.fs = st.fs) := by
  refine ⟨?_, ?_, ?_⟩
  · rw [combine_none_iff]
    exact ⟨fun h df hdf => (project_none_iff df).mp (h df hdf),
      fun h df hdf => (project_none_iff df).mpr (h df hdf)⟩
  · intro c hc
    rw [combine_some_rows_length acc c hc, sum_filterMap_project]
  · intro wfail st hacc hnone
    refine ⟨addLines st combineBanner, ?_, rfl⟩
    unfold combineStep
    have h1 : combine (addLines st combineBanner).acc = none := by
      show combine st.acc = none
      rw [hacc, hnone]
    simp only [h1]

/-- An always-succeeding write/read oracle. -/
def noFail (_ : List Nat) : Option ErrMsg := none

theorem claim_c3_witness :
    ∃ st2, combineStep noFail { fs := [], acc := [], console := [] } = .ok st2 ∧
      st2.fs = ({ fs := [], acc := [], console := [] } : St).fs :=
  (claim_c3_combined_rowcount []).2.2 noFail
    { fs := [], acc := [], console := [] } rfl rfl

/-! ## C9: every accumulated table carries the two annotation columns -/

theorem processItem_acc_mem (fetch : List Nat → Except ErrMsg DF)
    (wfail : List Nat → Option ErrMsg) (headTag catTag pfx : List Nat)
    (st : St) (name : List Nat) (df : DF)
    (hdf : df ∈ (processItem fetch wfail headTag catTag pfx st name).acc) :
    df ∈ st.acc ∨
      (codes "dataset" ∈ df.cols ∧ codes "category" ∈ df.cols) := by
  unfold processItem at hdf
  cases hf : fetch name with
  | error e =>
    rw [hf] at hdf
    exact Or.inl hdf
  | ok df0 =>
    rw [hf] at hdf
    cases hw : wfail (fnameOf pfx name) with
    | some e =>
      simp only [hw] at hdf
      exact Or.inl hdf
    | none =>
      simp only [hw] at hdf
      rcases List.mem_append.mp hdf with h1 | h1
      · exact Or.inl h1
      · rw [List.mem_singleton] at h1
        subst h1
        refine Or.inr ⟨?_, ?_⟩
        · exact normCols_mem _ _
            (setConst_mem_mono _ _ _ _ (setConst_mem_self df0 (codes "dataset") (.str name)))
            (by decide)
        · exact normCols_mem _ _
            (setConst_mem_self _ (codes "category") (.str catTag))
            (by decide)

theorem foldl_acc_invariant (fetch : List Nat → Except ErrMsg DF)
    (wfail : List Nat → Option ErrMsg) (headTag catTag pfx : List Nat)
    (names : List (List Nat)) (st : St)
    (hst : ∀ df ∈ st.acc, codes "dataset" ∈ df.cols ∧ codes "category" ∈ df.cols) :
    ∀ df ∈ (names.foldl (processItem fetch wfail headTag catTag pfx) st).acc,
      codes "dataset" ∈ df.cols ∧ codes "category" ∈ df.cols := by
  induction names generalizing st with
  | nil => exact hst
  | cons n rest ih =>
    rw [List.foldl_cons]
    apply ih
    intro df hdf
    rcases processItem_acc_mem fetch wfail headTag catTag pfx st n df hdf with h | h
    · exact hst df h
    · exact h

theorem runPhase1_acc_cols (fetchA fetchT : List Nat → Except ErrMsg DF)
    (wfail : List Nat → Option ErrMsg) :
    ∀ df ∈ (runPhase1 fetchA fetchT wfail
        { fs := [], acc := [], console := [] }).acc,
      codes "dataset" ∈ df.cols ∧ codes "category" ∈ df.cols := by
  unfold runPhase1
  apply foldl_acc_invariant
  intro df hdf
  have hdf' : df ∈ (admeDatasets.foldl
      (processItem fetchA wfail (codes "ADME") (codes "ADME") (codes "adme_"))
      (addLines { fs := [], acc := [], console := [] }
        [sepLine, .text (codes "Downloading ADME datasets from TDC..."), sepLine])).acc := hdf
  refine foldl_acc_invariant _ _ _ _ _ _ _ ?_ df hdf'
  intro d hd
  simp [addLines] at hd

theorem filterMap_project_all_some (acc : List DF)
    (h : ∀ df ∈ acc, (project df).isSome) :
    (acc.filterMap project).map (fun s => s.rows.length) =
      acc.map (fun df => df.rows.length) := by
  induction acc with
  | nil => rfl
  | cons df t ih =>
    have hdf := h df (List.mem_cons_self df t)
    cases hp : project df with
    | none => rw [hp] at hdf; simp at hdf
    | some s =>
      rw [List.filterMap_cons_some hp, List.map_cons, List.map_cons,
        project_rows_length df s hp, ih (fun d hd => h d (List.mem_cons_of_mem df hd))]

/-- C9: every table in the accumulator carries both annotation columns
`dataset` and `category` (appended before accumulation and fixed by
normalization), so the combiner's skip branch cannot fire for an accumulated
table — whenever the accumulator is nonempty the combined table exists and
its row count is the full sum over all accumulated tables. -/
theorem claim_c9_accumulator_invariant (fetchA fetchT : List Nat → Except ErrMsg DF)
    (wfail : List Nat → Option ErrMsg) :
    (∀ df ∈ (runPhase1 fetchA fetchT wfail
        { fs := [], acc := [], console := [] }).acc,
      codes "dataset" ∈ df.cols ∧ codes "category" ∈ df.cols ∧
        (project df).isSome) ∧
    ((runPhase1 fetchA fetchT wfail { fs := [], acc := [], console := [] }).acc ≠ [] →
      ∃ c, combine (runPhase1 fetchA fetchT wfail
          { fs := [], acc := [], console := [] }).acc = some c ∧
        c.rows.length = ((runPhase1 fetchA fetchT wfail
            { fs := [], acc := [], console := [] }).acc.map
          (fun df => df.rows.length)).sum) := by
  have hcols := runPhase1_acc_cols fetchA fetchT wfail
  have hsome : ∀ df ∈ (runPhase1 fetchA fetchT wfail
      { fs := [], acc := [], console := [] }).acc, (project df).isSome := by
    intro df hdf
    exact project_isSome_of_mem df (codes "dataset") (by decide) (hcols df hdf).1
  constructor
  · intro df hdf
    exact ⟨(hcols df hdf).1, (hcols df hdf).2, hsome df hdf⟩
  · intro hne
    rcases hacc : (runPhase1 fetchA fetchT wfail
        { fs := [], acc := [], console := [] }).acc with _ | ⟨d0, rest⟩
    · exact absurd hacc hne
    · have hsome' : ∀ df ∈ d0 :: rest, (project df).isSome := by
        rw [← hacc]; exact hsome
      have hd0 := hsome' d0 (List.mem_cons_self d0 rest)
      have hfm : ((d0 :: rest).filterMap project).isEmpty = false := by
        cases hp : project d0 with
        | none => rw [hp] at hd0; simp at hd0
        | some s => rw [List.filterMap_cons_some hp]; rfl
      refine ⟨concatDFs ((d0 :: rest).filterMap project), ?_, ?_⟩
      · unfold combine
        rw [if_neg (by rw [hfm]; simp)]
      · rw [concatDFs_rows_length, filterMap_project_all_some _ hsome']

/-! ## C7: concatenation preserves table order and row order -/

theorem mem_unionCols_aux (l : List (List (List Nat))) (acc : List (List Nat))
    (x : List Nat) :
    x ∈ l.foldl (fun a cs => a ++ cs.filter (fun c => !a.contains c)) acc ↔
      x ∈ acc ∨ ∃ cs ∈ l, x ∈ cs := by
  induction l generalizing acc with
  | nil => simp
  | cons cs t ih =>
    rw [List.foldl_cons, ih]
    constructor
    · rintro (h | h)
      · rcases List.mem_append.mp h with h1 | h1
        · exact Or.inl h1
        · exact Or.inr ⟨cs, List.mem_cons_self cs t, (List.mem_filter.mp h1).1⟩
      · rcases h with ⟨cs', hcs', hx⟩
        exact Or.inr ⟨cs', List.mem_cons_of_mem cs hcs', hx⟩
    · rintro (h | ⟨cs', hcs', hx⟩)
      · exact Or.inl (List.mem_append.mpr (Or.inl h))
      · rcases List.mem_cons.mp hcs' with h1 | h1
        · subst h1
          by_cases hin : x ∈ acc
          · exact Or.inl (List.mem_append.mpr (Or.inl hin))
          · exact Or.inl (List.mem_append.mpr (Or.inr
              (List.mem_filter.mpr ⟨hx, by simp [List.elem_iff, hin]⟩)))
        · exact Or.inr ⟨cs', h1, hx⟩

theorem mem_unionCols (l : List (List (List Nat))) (x : List Nat) :
    x ∈ unionCols l ↔ ∃ cs ∈ l, x ∈ cs := by
  unfold unionCols
  rw [mem_unionCols_aux]
  simp

theorem concat_colVals (parts : List DF) (col : List Nat)
    (h : col ∈ (concatDFs parts).cols) :
    (concatDFs parts).colVals col = parts.flatMap (fun s => s.colVals col) := by
  have hcols : (concatDFs parts).cols = unionCols (parts.map (fun df => df.cols)) := rfl
  rw [hcols] at h
  show ((parts.map (fun df => df.rows.map (fun r =>
      (unionCols (parts.map (fun df => df.cols))).map
        (fun c => cellOf df.cols r c)))).flatten).map
    (fun r => cellOf (unionCols (parts.map (fun df => df.cols))) r col) = _
  rw [List.map_flatten, List.flatMap_def, List.map_map]
  congr 1
  apply List.map_congr_left
  intro df _
  show (df.rows.map (fun r => (unionCols (parts.map (fun df => df.cols))).map
      (fun c => cellOf df.cols r c))).map
    (fun r => cellOf (unionCols (parts.map (fun df => df.cols))) r col) = df.colVals col
  rw [List.map_map]
  apply List.map_congr_left
  intro r _
  exact cellOf_map_self _ (fun c => cellOf df.cols r c) col h

/-- C7: the combined table is the concatenation of the projected subsets in
accumulator order: its row count is the sum over the projected subsets in
order, and every combined column reads, top to bottom, as the chained
per-subset column values (subsets in accumulator order, each preserving its
own row order, nothing deduplicated). A fresh contiguous 0-based row index
is inherent in the positional list-of-rows representation
(`ignore_index=True`). -/
theorem claim_c7_concat_preserves_order (acc : List DF) (c : DF)
    (h : combine acc = some c) :
    c.rows.length = ((acc.filterMap project).map (fun s => s.rows.length)).sum ∧
    ∀ col ∈ c.cols, c.colVals col =
      (acc.filterMap project).flatMap (fun s => s.colVals col) := by
  have hc : c = concatDFs (acc.filterMap project) := by
    unfold combine at h
    by_cases he : (acc.filterMap project).isEmpty
    · rw [if_pos he] at h; exact absurd h (by simp)
    · rw [if_neg he] at h
      simp only [Option.some_inj] at h
      exact h.symm
  subst hc
  exact ⟨concatDFs_rows_length _,
    fun col hcol => concat_colVals (acc.filterMap project) col hcol⟩

/-- A two-row provider table with no identifier column. -/
def w2DF : DF :=
  { cols := [codes "drug", codes "y"],
    rows := [[.str (codes "CCO"), .int 1], [.str (codes "CCN"), .int 0]] }

theorem claim_c7_witness :
    (concatDFs ([w2DF].filterMap project)).rows.length =
      (([w2DF].filterMap project).map (fun s => s.rows.length)).sum ∧
    ∀ col ∈ (concatDFs ([w2DF].filterMap project)).cols,
      (concatDFs ([w2DF].filterMap project)).colVals col =
        ([w2DF].filterMap project).flatMap (fun s => s.colVals col) :=
  claim_c7_concat_preserves_order [w2DF] (concatDFs ([w2DF].filterMap project)) rfl

/-! ## C4: schema of the combined table -/

theorem zip_self_map {β : Type} (l : List (List Nat)) (h : List Nat → β) :
    l.zip (l.map h) = l.map (fun a => (a, h a)) := by
  induction l with
  | nil => rfl
  | cons a t ih => simp [ih]

theorem project_cols_keep (df s : DF) (h : project df = some s) :
    ∀ col ∈ s.cols, col ∈ keepCols ∧ col ∈ df.cols := by
  unfold project at h
  by_cases he : (keepCols.filter (fun c => df.cols.contains c)).isEmpty
  · rw [if_pos he] at h; exact absurd h (by simp)
  · rw [if_neg he] at h
    simp only [Option.some_inj] at h
    subst h
    intro col hcol
    have hcol' : col ∈ keepCols.filter (fun c => df.cols.contains c) := by
      by_cases hd : (df.selectCols (keepCols.filter
          (fun c => df.cols.contains c))).cols.contains (codes "drug_id")
      · rw [if_pos hd] at hcol; exact hcol
      · rw [if_neg hd] at hcol; exact hcol
    have := List.mem_filter.mp hcol'
    exact ⟨this.1, List.elem_iff.mp this.2⟩

theorem project_shape (df s : DF) (h : project df = some s) :
    s.cols = keepCols.filter (fun c => df.cols.contains c) ∧
    s.rows = df.rows.map (fun r => s.cols.map (fun cc =>
      if cc = codes "drug_id" then (cellOf df.cols r cc).toStr
      else cellOf df.cols r cc)) := by
  unfold project at h
  by_cases he : (keepCols.filter (fun c => df.cols.contains c)).isEmpty
  · rw [if_pos he] at h; exact absurd h (by simp)
  · rw [if_neg he] at h
    simp only [Option.some_inj] at h
    by_cases hd : (df.selectCols (keepCols.filter
        (fun c => df.cols.contains c))).cols.contains (codes "drug_id")
    · rw [if_pos hd] at h
      subst h
      constructor
      · rfl
      · show (df.rows.map (fun r => (keepCols.filter (fun c => df.cols.contains c)).map
            (fun c => cellOf df.cols r c))).map _ = _
        rw [List.map_map]
        apply List.map_congr_left
        intro r _
        show ((keepCols.filter (fun c => df.cols.contains c)).zip
            ((keepCols.filter (fun c => df.cols.contains c)).map
              (fun c => cellOf df.cols r c))).map _ = _
        rw [zip_self_map, List.map_map]
        apply List.map_congr_left
        intro cc _
        show (if cc = codes "drug_id" then (cellOf df.cols r cc).toStr
          else cellOf df.cols r cc) = _
        rfl
    · rw [if_neg hd] at h
      subst h
      refine ⟨rfl, ?_⟩
      apply List.map_congr_left
      intro r _
      apply List.map_congr_left
      intro cc hcc
      have hne : cc ≠ codes "drug_id" := by
        intro heq
        subst heq
        exact hd (by simpa [DF.selectCols, List.elem_iff] using hcc)
      rw [if_neg hne]

theorem toStr_isStr (v : Value) : (Value.toStr v).isStr = true := by
  cases v <;> rfl

theorem project_drugId_vals_str (df s : DF) (h : project df = some s)
    (hdi : codes "drug_id" ∈ df.cols) :
    ∀ v ∈ s.colVals (codes "drug_id"), v.isStr = true := by
  obtain ⟨hcols, hrows⟩ := project_shape df s h
  have hmem : codes "drug_id" ∈ s.cols := by
    rw [hcols]
    exact List.mem_filter.mpr ⟨by decide, List.elem_iff.mpr hdi⟩
  intro v hv
  unfold DF.colVals at hv
  rw [hrows, List.map_map] at hv
  rcases List.mem_map.mp hv with ⟨r, _, hr⟩
  have : cellOf s.cols (s.cols.map (fun cc =>
      if cc = codes "drug_id" then (cellOf df.cols r cc).toStr
      else cellOf df.cols r cc)) (codes "drug_id") =
      (cellOf df.cols r (codes "drug_id")).toStr := by
    rw [cellOf_map_self _ _ _ hmem]
    rw [if_pos rfl]
  rw [← hr]
  show (cellOf s.cols _ (codes "drug_id")).isStr = true
  rw [this]
  exact toStr_isStr _

/-- C4 (amended): every column of the combined table is one of the five
projected names; and provided every projected input table has a `drug_id`
column, every entry of the combined `drug_id` column is text-typed. (The
unamended claim fails when one projected table lacks `drug_id`: `pd.concat`
then fills that table's slice of the column with the non-text NaN filler —
see the counterexample.) -/
theorem claim_c4_combined_schema (acc : List DF) (c : DF)
    (h : combine acc = some c) :
    (∀ col ∈ c.cols, col ∈ keepCols) ∧
    ((∀ df ∈ acc, (project df).isSome → codes "drug_id" ∈ df.cols) →
      ∀ v ∈ c.colVals (codes "drug_id"), v.isStr = true) := by
  have hc : c = concatDFs (acc.filterMap project) := by
    unfold combine at h
    by_cases he : (acc.filterMap project).isEmpty
    · rw [if_pos he] at h; exact absurd h (by simp)
    · rw [if_neg he] at h
      simp only [Option.some_inj] at h
      exact h.symm
  have hparts : ∀ s ∈ acc.filterMap project, ∃ df ∈ acc, project df = some s :=
    fun s hs => List.mem_filterMap.mp hs
  constructor
  · intro col hcol
    rw [hc] at hcol
    have : col ∈ unionCols ((acc.filterMap project).map (fun df => df.cols)) := hcol
    rcases (mem_unionCols _ col).mp this with ⟨cs, hcs, hcol'⟩
    rcases List.mem_map.mp hcs with ⟨s, hs, rfl⟩
    rcases hparts s hs with ⟨df, _, hdf⟩
    exact (project_cols_keep df s hdf col hcol').1
  · intro hall v hv
    have hne : acc.filterMap project ≠ [] := by
      unfold combine at h
      by_cases he : (acc.filterMap project).isEmpty
      · rw [if_pos he] at h; exact absurd h (by simp)
      · intro hnil
        rw [hnil] at he
        exact he rfl
    rcases List.exists_mem_of_ne_nil _ hne with ⟨s0, hs0⟩
    rcases hparts s0 hs0 with ⟨df0, hdf0a, hdf0⟩
    have hdi0 : codes "drug_id" ∈ df0.cols := hall df0 hdf0a (by rw [hdf0]; rfl)
    have hs0di : codes "drug_id" ∈ s0.cols := by
      rw [(project_shape df0 s0 hdf0).1]
      exact List.mem_filter.mpr ⟨by decide, List.elem_iff.mpr hdi0⟩
    have hmem : codes "drug_id" ∈ c.cols := by
      rw [hc]
      exact (mem_unionCols _ _).mpr ⟨s0.cols, List.mem_map.mpr ⟨s0, hs0, rfl⟩, hs0di⟩
    rw [hc] at hv hmem
    rw [concat_colVals _ _ hmem] at hv
    rcases List.mem_flatMap.mp hv with ⟨s, hs, hvs⟩
    rcases hparts s hs with ⟨df, hdfa, hdf⟩
    exact project_drugId_vals_str df s hdf (hall df hdfa (by rw [hdf]; rfl)) v hvs


/-- A one-row provider table with an integer identifier column. -/
def w3DF : DF :=
  { cols := [codes "drug_id", codes "y"], rows := [[.int 7, .int 1]] }

theorem claim_c4_witness :
    (∀ col ∈ (concatDFs ([w3DF].filterMap project)).cols, col ∈ keepCols) ∧
    ((∀ df ∈ [w3DF], (project df).isSome → codes "drug_id" ∈ df.cols) →
      ∀ v ∈ (concatDFs ([w3DF].filterMap project)).colVals (codes "drug_id"),
        v.isStr = true) :=
  claim_c4_combined_schema [w3DF] (concatDFs ([w3DF].filterMap project)) rfl

/-- Provider oracle for the C4 counterexample: two ADME names succeed, one
table with a `Drug_ID` column and one without; every other fetch raises. -/
def c4FetchA (name : List Nat) : Except ErrMsg DF :=
  if name = codes "Caco2_Wang" then
    .ok { cols := [codes "Drug_ID", codes "Y"],
          rows := [[.str (codes "d1"), .int 1]] }
  else if name = codes "PAMPA_NCATS" then
    .ok { cols := [codes "Drug", codes "Y"],
          rows := [[.str (codes "CCO"), .int 0]] }
  else .error (codes "Invalid name")

/-- A provider oracle whose every call raises. -/
def failFetch (_ : List Nat) : Except ErrMsg DF := .error (codes "Invalid name")

/-- The combined table the program writes under the C4 counterexample
oracles. -/
def c4Combined : Option DF :=
  match runMain c4FetchA failFetch noFail noFail with
  | .ok st => fsLookup st.fs combinedName
  | .error _ => none

/-- C4 counterexample: with one fetched table carrying `Drug_ID` and another
not, the program's combined file has a `drug_id` column that is NOT entirely
text-typed — the rows contributed by the table without `Drug_ID` hold the
NaN filler. This refutes the claim as stated. -/
theorem claim_c4_counterexample :
    c4Combined.map (fun c =>
      (decide (codes "drug_id" ∈ c.cols),
       (c.colVals (codes "drug_id")).all Value.isStr)) = some (true, false) := by
  decide

theorem claim_c9_witness :
    ∃ c, combine (runPhase1 c4FetchA failFetch noFail
        { fs := [], acc := [], console := [] }).acc = some c ∧
      c.rows.length = ((runPhase1 c4FetchA failFetch noFail
          { fs := [], acc := [], console := [] }).acc.map
        (fun df => df.rows.length)).sum :=
  (claim_c9_accumulator_invariant c4FetchA failFetch noFail).2 (by decide)

/-! ## C5: the end-to-end mocked scenario -/

/-- The 3-row mocked provider table with columns `Drug_ID, Drug, Y`. -/
def c5DF : DF :=
  { cols := [codes "Drug_ID", codes "Drug", codes "Y"],
    rows := [[.str (codes "d1"), .str (codes "CCO"), .int 1],
             [.str (codes "d2"), .str (codes "CCN"), .int 0],
             [.str (codes "d3"), .str (codes "CCC"), .int 1]] }

/-- C5's provider oracle: one ADME name returns the 3-row table, every other
call (the second mocked name included) raises a fetch failure. -/
def c5FetchA (name : List Nat) : Except ErrMsg DF :=
  if name = codes "Caco2_Wang" then .ok c5DF else .error (codes "fetch failure")

/-- The C5 end-to-end run. -/
def c5Run : Except ErrMsg St := runMain c5FetchA failFetch noFail noFail

/-- C5 counterexample: in the mocked scenario the run's final console line
reports a total of 6 records across 2 files — the 3 rows of the per-dataset
file plus the 3 rows of the combined file, both re-read by the reporter —
and no "3 records across 2 files" line is ever printed. The claimed console
report of 3 records is therefore false. -/
theorem claim_c5_counterexample :
    (match c5Run with
      | .ok st => some (st.console.getLast?, decide (Line.total 3 2 ∈ st.console))
      | .error _ => none) = some (some (.total 6 2), false) := by
  decide

/-- C5 (amended): the mocked scenario produces exactly one ADME output file,
with 3 rows, the normalized provider columns and the extra
`dataset`/`category` columns (constant at the name and "ADME"), plus a
combined file with 3 rows and columns `drug_id, drug, y, dataset, category`;
the console total line reports 6 records across the 2 files, the combined
file's rows being counted a second time. -/
theorem claim_c5_scenario :
    (match c5Run with
      | .ok st => some
        (st.fs.map (fun (p : List Nat × DF) => p.1),
         (fsLookup st.fs (codes "adme_caco2_wang.parquet")).map
           (fun df => (df.cols, df.rows.length,
             df.colVals (codes "dataset"), df.colVals (codes "category"))),
         (fsLookup st.fs combinedName).map (fun df => (df.cols, df.rows.length)),
         st.console.getLast?)
      | .error _ => none) =
    some ([codes "adme_caco2_wang.parquet", combinedName],
          some ([codes "drug_id", codes "drug", codes "y",
                 codes "dataset", codes "category"], 3,
            List.replicate 3 (.str (codes "Caco2_Wang")),
            List.replicate 3 (.str (codes "ADME"))),
          some ([codes "drug_id", codes "drug", codes "y",
                 codes "dataset", codes "category"], 3),
          some (.total 6 2)) := by
  rfl

/-! ## C8: the reporter -/

theorem lexLe_total (a b : List Nat) : lexLe a b = true ∨ lexLe b a = true := by
  induction a generalizing b with
  | nil => exact Or.inl rfl
  | cons x xs ih =>
    cases b with
    | nil => exact Or.inr rfl
    | cons y ys =>
      by_cases hxy : x < y
      · refine Or.inl ?_
        show (if x < y then true else if y < x then false else lexLe xs ys) = true
        rw [if_pos hxy]
      · by_cases hyx : y < x
        · refine Or.inr ?_
          show (if y < x then true else if x < y then false else lexLe ys xs) = true
          rw [if_pos hyx]
        · rcases ih ys with h | h
          · refine Or.inl ?_
            show (if x < y then true else if y < x then false else lexLe xs ys) = true
            rw [if_neg hxy, if_neg hyx]
            exact h
          · refine Or.inr ?_
            show (if y < x then true else if x < y then false else lexLe ys xs) = true
            rw [if_neg hyx, if_neg hxy]
            exact h

theorem lexLe_trans (a b c : List Nat) (hab : lexLe a b = true)
    (hbc : lexLe b c = true) : lexLe a c = true := by
  induction a generalizing b c with
  | nil => rfl
  | cons x xs ih =>
    cases b with
    | nil => exact absurd hab (by simp [lexLe])
    | cons y ys =>
      cases c with
      | nil => exact absurd hbc (by simp [lexLe])
      | cons z zs =>
        rw [show lexLe (x :: xs) (y :: ys) =
          (if x < y then true else if y < x then false else lexLe xs ys) from rfl] at hab
        rw [show lexLe (y :: ys) (z :: zs) =
          (if y < z then true else if z < y then false else lexLe ys zs) from rfl] at hbc
        show (if x < z then true else if z < x then false else lexLe xs zs) = true
        have hab' : x < y ∨ (x = y ∧ lexLe xs ys = true) := by
          by_cases hxy : x < y
          · exact Or.inl hxy
          · by_cases hyx : y < x
            · rw [if_neg hxy, if_pos hyx] at hab
              exact absurd hab (by simp)
            · rw [if_neg hxy, if_neg hyx] at hab
              exact Or.inr ⟨by omega, hab⟩
        have hbc' : y < z ∨ (y = z ∧ lexLe ys zs = true) := by
          by_cases hyz : y < z
          · exact Or.inl hyz
          · by_cases hzy : z < y
            · rw [if_neg hyz, if_pos hzy] at hbc
              exact absurd hbc (by simp)
            · rw [if_neg hyz, if_neg hzy] at hbc
              exact Or.inr ⟨by omega, hbc⟩
        rcases hab' with hxy | ⟨hexy, hxs⟩
        · rcases hbc' with hyz | ⟨heyz, hys⟩
          · rw [if_pos (by omega)]
          · rw [if_pos (by omega)]
        · rcases hbc' with hyz | ⟨heyz, hys⟩
          · rw [if_pos (by omega)]
          · have hexz : x = z := by omega
            rw [if_neg (by omega), if_neg (by omega)]
            subst hexy
            exact ih ys zs hxs hys

instance lexLePairTotal : IsTotal (List Nat × DF) (fun p q => lexLe p.1 q.1 = true) :=
  ⟨fun p q => lexLe_total p.1 q.1⟩

instance lexLePairTrans : IsTrans (List Nat × DF) (fun p q => lexLe p.1 q.1 = true) :=
  ⟨fun p q r hpq hqr => lexLe_trans p.1 q.1 r.1 hpq hqr⟩

theorem sortFiles_perm (fs : FS) : (sortFiles fs).Perm fs :=
  List.perm_insertionSort _ fs

theorem sortFiles_sorted (fs : FS) :
    List.Sorted (fun p q => lexLe p.1 q.1 = true) (sortFiles fs) :=
  List.sorted_insertionSort _ fs

theorem readLoop_ok (rfail : List Nat → Option ErrMsg) (files : FS)
    (t0 : Nat) (ls0 : List Line) (h : ∀ f ∈ files, rfail f.1 = none) :
    readLoop rfail files t0 ls0 =
      .ok (t0 + (files.map (fun p => p.2.rows.length)).sum,
        ls0 ++ files.map (fun p => Line.fileRows p.1 p.2.rows.length)) := by
  induction files generalizing t0 ls0 with
  | nil => simp [readLoop]
  | cons p rest ih =>
    obtain ⟨f, df⟩ := p
    have hf : rfail f = none := h (f, df) (List.mem_cons_self _ _)
    simp only [readLoop, hf]
    rw [ih _ _ (fun q hq => h q (List.mem_cons_of_mem _ hq))]
    rw [List.map_cons, List.sum_cons, List.map_cons]
    congr 1
    simp only [Prod.mk.injEq]
    constructor
    · omega
    · rw [List.append_assoc]
      rfl

theorem readLoop_error (rfail : List Nat → Option ErrMsg) (files : FS)
    (t0 : Nat) (ls0 : List Line) (h : ∃ f ∈ files, rfail f.1 ≠ none) :
    ∃ e, readLoop rfail files t0 ls0 = .error e := by
  induction files generalizing t0 ls0 with
  | nil => simp at h
  | cons p rest ih =>
    obtain ⟨f, df⟩ := p
    cases hr : rfail f with
    | some e =>
      exact ⟨e, by simp only [readLoop, hr]⟩
    | none =>
      have h' : ∃ f ∈ rest, rfail f.1 ≠ none := by
        rcases h with ⟨q, hq, hne⟩
        rcases List.mem_cons.mp hq with h1 | h1
        · subst h1; exact absurd hr hne
        · exact ⟨q, h1, hne⟩
      rcases ih (t0 + df.rows.length) (ls0 ++ [.fileRows f df.rows.length]) h' with ⟨e, he⟩
      refine ⟨e, ?_⟩
      simp only [readLoop, hr]
      exact he

theorem reportStep_ok (rfail : List Nat → Option ErrMsg) (st : St)
    (h : ∀ f ∈ st.fs, rfail f.1 = none) :
    reportStep rfail st = .ok
      { fs := st.fs
        acc := st.acc
        console := st.console ++ reportBanner ++
          (sortFiles st.fs).map (fun p => Line.fileRows p.1 p.2.rows.length) ++
          [.total ((st.fs.map (fun p => p.2.rows.length)).sum) st.fs.length] } := by
  have hsorted : ∀ f ∈ sortFiles st.fs, rfail f.1 = none :=
    fun f hf => h f ((sortFiles_perm st.fs).mem_iff.mp hf)
  have hsum : ((sortFiles st.fs).map (fun p => p.2.rows.length)).sum =
      (st.fs.map (fun p => p.2.rows.length)).sum :=
    ((sortFiles_perm st.fs).map _).sum_eq
  simp only [reportStep, addLines]
  rw [readLoop_ok rfail (sortFiles st.fs) 0 [] hsorted]
  rw [Nat.zero_add, hsum]
  rfl

/-- C8: the reporter re-reads every parquet file found in `brick/` — it is a
function of the directory contents alone, not of the in-memory accumulator —
prints one line per file in sorted filename order (the printed sequence is a
sorted permutation of the directory), then prints a grand total equal to the
sum of the re-read row counts together with the file count; and it has no
error handling: if any file's read raises, the whole run ends with that
unhandled error. -/
theorem claim_c8_reporter (rfail : List Nat → Option ErrMsg) (st : St) :
    ((∀ f ∈ st.fs, rfail f.1 = none) →
      reportStep rfail st = .ok
        { fs := st.fs
          acc := st.acc
          console := st.console ++ reportBanner ++
            (sortFiles st.fs).map (fun p => Line.fileRows p.1 p.2.rows.length) ++
            [.total ((st.fs.map (fun p => p.2.rows.length)).sum) st.fs.length] }) ∧
    ((sortFiles st.fs).Perm st.fs ∧
      List.Sorted (fun p q => lexLe p.1 q.1 = true) (sortFiles st.fs)) ∧
    ((∃ f ∈ st.fs, rfail f.1 ≠ none) → ∃ e, reportStep rfail st = .error e) ∧
    (∀ acc2 : List DF,
      (match reportStep rfail { st with acc := acc2 } with
        | .ok st2 => some (st2.fs, st2.console)
        | .error _ => none) =
      (match reportStep rfail st with
        | .ok st2 => some (st2.fs, st2.console)
        | .error _ => none)) := by
  refine ⟨reportStep_ok rfail st, ⟨sortFiles_perm st.fs, sortFiles_sorted st.fs⟩, ?_, ?_⟩
  · intro hfail
    have hfail' : ∃ f ∈ sortFiles st.fs, rfail f.1 ≠ none := by
      rcases hfail with ⟨f, hf, hne⟩
      exact ⟨f, (sortFiles_perm st.fs).mem_iff.mpr hf, hne⟩
    rcases readLoop_error rfail (sortFiles st.fs) 0 [] hfail' with ⟨e, he⟩
    refine ⟨e, ?_⟩
    simp only [reportStep, addLines]
    rw [he]
  · intro acc2
    simp only [reportStep, addLines]
    rcases hrl : readLoop rfail (sortFiles st.fs) 0 [] with e | p
    · simp
    · obtain ⟨tot, lines⟩ := p
      simp

/-- A concrete two-file directory for instantiating the reporter theorem. -/
def c8St : St :=
  { fs := [(codes "b.parquet", w3DF), (codes "a.parquet", w2DF)],
    acc := [], console := [] }

theorem claim_c8_witness :
    reportStep noFail c8St = .ok
      { fs := c8St.fs
        acc := c8St.acc
        console := c8St.console ++ reportBanner ++
          (sortFiles c8St.fs).map (fun p => Line.fileRows p.1 p.2.rows.length) ++
          [.total ((c8St.fs.map (fun p => p.2.rows.length)).sum) c8St.fs.length] } :=
  (claim_c8_reporter noFail c8St).1 (by decide)

/-! ## C10: the reporter total counts the combined file's rows again -/

theorem fsWrite_mem (fs : FS) (name : List Nat) (df : DF) (q : List Nat × DF)
    (h : q ∈ fsWrite fs name df) : q ∈ fs ∨ q.1 = name := by
  unfold fsWrite at h
  by_cases hany : fs.any (fun p => p.1 == name)
  · rw [if_pos hany] at h
    rcases List.mem_map.mp h with ⟨p, hp, hq⟩
    by_cases hpn : p.1 = name
    · rw [if_pos hpn] at hq
      right
      rw [← hq]
    · rw [if_neg hpn] at hq
      left
      rw [← hq]
      exact hp
  · rw [if_neg hany] at h
    rcases List.mem_append.mp h with h1 | h1
    · exact Or.inl h1
    · right
      rw [List.mem_singleton.mp h1]

theorem fsWrite_fresh (fs : FS) (name : List Nat) (df : DF)
    (h : ∀ q ∈ fs, q.1 ≠ name) : fsWrite fs name df = fs ++ [(name, df)] := by
  unfold fsWrite
  rw [if_neg]
  intro hany
  rcases List.any_eq_true.mp hany with ⟨q, hq, hqn⟩
  exact h q hq (by simpa using hqn)

theorem processItem_fs_mem (fetch : List Nat → Except ErrMsg DF)
    (wfail : List Nat → Option ErrMsg) (headTag catTag pfx : List Nat)
    (st : St) (name : List Nat) (q : List Nat × DF)
    (hq : q ∈ (processItem fetch wfail headTag catTag pfx st name).fs) :
    q ∈ st.fs ∨ q.1 = fnameOf pfx name := by
  unfold processItem at hq
  cases hf : fetch name with
  | error e =>
    rw [hf] at hq
    exact Or.inl hq
  | ok df0 =>
    rw [hf] at hq
    cases hw : wfail (fnameOf pfx name) with
    | some e =>
      simp only [hw] at hq
      exact Or.inl hq
    | none =>
      simp only [hw] at hq
      exact fsWrite_mem _ _ _ q hq

theorem foldl_fs_not_name (fetch : List Nat → Except ErrMsg DF)
    (wfail : List Nat → Option ErrMsg) (headTag catTag pfx : List Nat)
    (names : List (List Nat)) (st : St) (target : List Nat)
    (hpfx : ∀ n, fnameOf pfx n ≠ target)
    (hst : ∀ q ∈ st.fs, q.1 ≠ target) :
    ∀ q ∈ (names.foldl (processItem fetch wfail headTag catTag pfx) st).fs,
      q.1 ≠ target := by
  induction names generalizing st with
  | nil => exact hst
  | cons n rest ih =>
    rw [List.foldl_cons]
    apply ih
    intro q hq
    rcases processItem_fs_mem fetch wfail headTag catTag pfx st n q hq with h | h
    · exact hst q h
    · rw [h]
      exact hpfx n

theorem adme_fname_ne_combined (n : List Nat) :
    fnameOf (codes "adme_") n ≠ combinedName := by
  intro h
  have h2 := congrArg (fun l => List.take 1 l) h
  have e1 : (fnameOf (codes "adme_") n).take 1 = [97] := rfl
  have e2 : combinedName.take 1 = [116] := rfl
  simp only [e1, e2] at h2
  exact absurd h2 (by decide)

theorem tox_fname_ne_combined (n : List Nat) :
    fnameOf (codes "tox_") n ≠ combinedName := by
  intro h
  have h2 := congrArg (fun l => List.take 2 l) h
  have e1 : (fnameOf (codes "tox_") n).take 2 = [116, 111] := rfl
  have e2 : combinedName.take 2 = [116, 100] := rfl
  simp only [e1, e2] at h2
  exact absurd h2 (by decide)

theorem runPhase1_fs_not_combined (fetchA fetchT : List Nat → Except ErrMsg DF)
    (wfail : List Nat → Option ErrMsg) :
    ∀ q ∈ (runPhase1 fetchA fetchT wfail
        { fs := [], acc := [], console := [] }).fs, q.1 ≠ combinedName := by
  unfold runPhase1
  apply foldl_fs_not_name _ _ _ _ _ _ _ _ tox_fname_ne_combined
  intro q hq
  have hq' : q ∈ (admeDatasets.foldl
      (processItem fetchA wfail (codes "ADME") (codes "ADME") (codes "adme_"))
      (addLines { fs := [], acc := [], console := [] }
        [sepLine, .text (codes "Downloading ADME datasets from TDC..."), sepLine])).fs := hq
  refine foldl_fs_not_name _ _ _ _ _ _ _ _ adme_fname_ne_combined ?_ q hq'
  intro r hr
  simp [addLines] at hr

/-- The number of rows of the combined table, 0 when none is produced. -/
def combinedRowsOf (acc : List DF) : Nat :=
  match combine acc with
  | some c => c.rows.length
  | none => 0

/-- C10: the reporter's grand total double-counts: the combined file lives in
the same directory and matches the same `*.parquet` glob as the per-dataset
files, so for any oracles (with the combined write and all re-reads
succeeding) the final printed total equals the sum of the per-dataset files'
row counts plus the combined file's row count, and the file count is the
per-dataset file count plus one when a combined file was written. Every row
that entered the combined projection is thus counted twice. -/
theorem claim_c10_total_double_counts (fetchA fetchT : List Nat → Except ErrMsg DF)
    (wfail : List Nat → Option ErrMsg) (hw : wfail combinedName = none) :
    ∃ st, runMain fetchA fetchT wfail noFail = .ok st ∧
      st.console.getLast? = some (.total
        (((runPhase1 fetchA fetchT wfail { fs := [], acc := [], console := [] }).fs.map
            (fun p => p.2.rows.length)).sum +
          combinedRowsOf (runPhase1 fetchA fetchT wfail
            { fs := [], acc := [], console := [] }).acc)
        ((runPhase1 fetchA fetchT wfail { fs := [], acc := [], console := [] }).fs.length +
          (if (combine (runPhase1 fetchA fetchT wfail
              { fs := [], acc := [], console := [] }).acc).isSome then 1 else 0))) := by
  have hnc := runPhase1_fs_not_combined fetchA fetchT wfail
  simp only [runMain]
  generalize hst1 : runPhase1 fetchA fetchT wfail
    { fs := [], acc := [], console := [] } = st1
  rw [hst1] at hnc
  cases hcomb : combine st1.acc with
  | none =>
    have hcs : combineStep wfail st1 = .ok (addLines st1 combineBanner) := by
      simp only [combineStep, addLines]
      simp only [show combine st1.acc = none from hcomb]
    rw [hcs]
    have hrep := reportStep_ok noFail (addLines st1 combineBanner) (fun f _ => rfl)
    refine ⟨_, hrep, ?_⟩
    simp only [List.getLast?_concat]
    simp [combinedRowsOf, hcomb, addLines]
  | some c =>
    have hfresh : fsWrite st1.fs combinedName c = st1.fs ++ [(combinedName, c)] :=
      fsWrite_fresh st1.fs combinedName c hnc
    have hcs : combineStep wfail st1 = .ok
        { fs := st1.fs ++ [(combinedName, c)]
          acc := st1.acc
          console := st1.console ++ combineBanner ++ [.combinedTotal c.rows.length] } := by
      simp only [combineStep, addLines]
      simp only [show combine st1.acc = some c from hcomb]
      rw [hw, hfresh]
    rw [hcs]
    have hrep := reportStep_ok noFail
      { fs := st1.fs ++ [(combinedName, c)]
        acc := st1.acc
        console := st1.console ++ combineBanner ++ [.combinedTotal c.rows.length] }
      (fun f _ => rfl)
    refine ⟨_, hrep, ?_⟩
    simp only [List.getLast?_concat]
    simp [combinedRowsOf, hcomb, List.map_append, List.sum_append, List.length_append]

theorem claim_c10_witness :
    ∃ st, runMain c5FetchA failFetch noFail noFail = .ok st ∧
      st.console.getLast? = some (.total
        (((runPhase1 c5FetchA failFetch noFail { fs := [], acc := [], console := [] }).fs.map
            (fun p => p.2.rows.length)).sum +
          combinedRowsOf (runPhase1 c5FetchA failFetch noFail
            { fs := [], acc := [], console := [] }).acc)
        ((runPhase1 c5FetchA failFetch noFail
            { fs := [], acc := [], console := [] }).fs.length +
          (if (combine (runPhase1 c5FetchA failFetch noFail
              { fs := [], acc := [], console := [] }).acc).isSome then 1 else 0))) :=
  claim_c10_total_double_counts c5FetchA failFetch noFail rfl
